import Mathlib

/-!
Verification of the file-carving engine in `extract_hidden_files.py` and the
steganographic writer in `stegno.py`.

Bytes are modelled as `List Nat` (each element a byte value), byte offsets as
`Nat`, and Python `int` results that may be `-1` (from `bytes.find`) as `Int`.
Decoded text is modelled as `List Char`.
-/

/-- The `FILE_SIGNATURES` dictionary: each entry is
`(signature, (extension, footer))`, in insertion order (Python dict iteration
order). -/
def FILE_SIGNATURES : List (List Nat × List Char × Option (List Nat)) :=
  [ ([0x50, 0x4B, 0x03, 0x04], ['z', 'i', 'p'], some [0x50, 0x4B, 0x05, 0x06]),
    ([0x25, 0x50, 0x44, 0x46], ['p', 'd', 'f'], some [0x25, 0x25, 0x45, 0x4F, 0x46]),
    ([0x89, 0x50, 0x4E, 0x47, 0x0D, 0x0A, 0x1A, 0x0A], ['p', 'n', 'g'],
      some [0x49, 0x45, 0x4E, 0x44, 0xAE, 0x42, 0x60, 0x82]),
    ([0xFF, 0xD8, 0xFF], ['j', 'p', 'g'], some [0xFF, 0xD9]),
    ([0x47, 0x49, 0x46, 0x38, 0x37, 0x61], ['g', 'i', 'f'], none),
    ([0x47, 0x49, 0x46, 0x38, 0x39, 0x61], ['g', 'i', 'f'], none),
    ([0x49, 0x49, 0x2A, 0x00], ['t', 'i', 'f', 'f'], none),
    ([0x4D, 0x4D, 0x00, 0x2A], ['t', 'i', 'f', 'f'], none),
    ([0xEF, 0xBB, 0xBF], ['t', 'x', 't'], none),
    ([0xFF, 0xFE], ['t', 'x', 't'], none),
    ([0xFE, 0xFF], ['t', 'x', 't'], none),
    ([0x00, 0x00, 0xFE, 0xFF], ['t', 'x', 't'], none),
    ([0xFF, 0xFE, 0x00, 0x00], ['t', 'x', 't'], none) ]

/-- A hit, as the Python tuple `(signature, offset, extension, footer)`
appended by `find_file_signatures`. -/
abbrev Hit := List Nat × Nat × List Char × Option (List Nat)

/-- The pattern `sig` occurs in `data` at offset `o` (true exactly when the
`sig.length` bytes of `data` starting at `o` exist and equal `sig`). -/
def matchesAt (data sig : List Nat) (o : Nat) : Bool :=
  decide ((data.drop o).take sig.length = sig)

/-- Walk the suffix of the buffer, returning the first index (counting from
`i`) at which the pattern matches.  Models the scan done by Python
`bytes.find(sig, start)`.  (The empty-pattern case is irrelevant: every
catalog signature and footer is non-empty.) -/
def findFromGo (sig : List Nat) : List Nat → Nat → Option Nat
  | [], i => if sig = [] then some i else none
  | d :: rest, i =>
    if sig = (d :: rest).take sig.length then some i
    else findFromGo sig rest (i + 1)

/-- Python `data.find(sig, start)` returning `some` of the least matching
offset `≥ start`, or `none` where Python returns `-1`. -/
def findFrom (data sig : List Nat) (start : Nat) : Option Nat :=
  findFromGo sig (data.drop start) start

/-- Python `data.find(pat, start)` as the `int` Python produces
(`-1` when the pattern is absent). -/
def pyFind (data pat : List Nat) (start : Nat) : Int :=
  match findFrom data pat start with
  | some o => (o : Int)
  | none => -1

/-- The `while offset != -1` loop of `find_file_signatures` for one
signature: collect the found offset, then search again starting one byte past
it (`data.find(signature, offset + 1)`).  `fuel` bounds the number of loop
iterations; it only decreases, and `scanSig` supplies enough fuel that it is
never exhausted (each found offset is at least the search start, so starts
strictly increase and stay `< data.length` for a non-empty signature). -/
def scanLoop (data sig : List Nat) : Nat → Nat → List Nat
  | _, 0 => []
  | start, fuel + 1 =>
    match findFrom data sig start with
    | none => []
    | some o => o :: scanLoop data sig (o + 1) fuel

/-- All offsets collected for one signature, first search starting at 0. -/
def scanSig (data sig : List Nat) : List Nat :=
  scanLoop data sig 0 (data.length + 1)

/-- The hit list of `find_file_signatures` before the final sort: for each
catalog entry in iteration order, one `(signature, offset, extension, footer)`
tuple per found offset, in scan order. -/
def rawHits (data : List Nat) : List Hit :=
  FILE_SIGNATURES.flatMap (fun e => (scanSig data e.1).map (fun o => (e.1, o, e.2.1, e.2.2)))

/-- The comparison used by `signatures.sort(key=lambda x: x[1])`: order by
offset; the sort is stable, as Python's `list.sort` is. -/
def hitLE (a b : Hit) : Bool :=
  decide (a.2.1 ≤ b.2.1)

/-- Python `find_file_signatures`: scan every catalog entry, then stably sort
the hits by offset. -/
def find_file_signatures (data : List Nat) : List Hit :=
  (rawHits data).mergeSort hitLE

/-- Python slice `data[s:e]` for a non-negative start `s` and an `int` end
`e` (a negative end counts from the end of the buffer). -/
def pySlice (d : List Nat) (s : Nat) (e : Int) : List Nat :=
  ((d.take (if e < 0 then (e + d.length).toNat else e.toNat)).drop s)

/-- The `end` used when no footer drives the resolution:
`signatures[i + 1][1] if i + 1 < len(signatures) else len(data)`. -/
def nextEnd (data : List Nat) (next : Option Hit) : Int :=
  match next with
  | some h2 => (h2.2.1 : Int)
  | none => (data.length : Int)

/-- The span end computed by the body of the `extract_files_from_image` loop
for one hit, given the following hit (if any).  Python's `if footer:` is true
exactly when the footer is present and non-empty; in that case
`end = data.find(footer, start) + len(footer)`. -/
def spanEnd (data : List Nat) (hit : Hit) (next : Option Hit) : Int :=
  match hit.2.2.2 with
  | some f => if f = [] then nextEnd data next else pyFind data f hit.2.1 + (f.length : Int)
  | none => nextEnd data next

/-- First-continuation lower bound for a three-byte UTF-8 lead (`E0` excludes
overlong encodings). -/
def cont3Lo (b : Nat) : Nat := if b = 0xE0 then 0xA0 else 0x80

/-- First-continuation upper bound for a three-byte UTF-8 lead (`ED` excludes
surrogates). -/
def cont3Hi (b : Nat) : Nat := if b = 0xED then 0x9F else 0xBF

/-- First-continuation lower bound for a four-byte UTF-8 lead (`F0` excludes
overlong encodings). -/
def cont4Lo (b : Nat) : Nat := if b = 0xF0 then 0x90 else 0x80

/-- First-continuation upper bound for a four-byte UTF-8 lead (`F4` caps code
points at `U+10FFFF`). -/
def cont4Hi (b : Nat) : Nat := if b = 0xF4 then 0x8F else 0xBF

/-- One pass of Python `bytes.decode('utf-8', errors='ignore')`: standard
UTF-8 decoding where an ill-formed subsequence contributes no output and
decoding resumes at the byte after its maximal valid prefix (the byte after
the lead when the first continuation is invalid, and so on), as CPython's
`ignore` error handler does.  `fuel` only bounds the recursion; each step
consumes at least one byte and one unit of fuel, so starting with
`fuel = length` never exhausts it. -/
def utf8Go : Nat → List Nat → List Char
  | 0, _ => []
  | _, [] => []
  | fuel + 1, b :: rest =>
    if b < 0x80 then Char.ofNat b :: utf8Go fuel rest
    else if 0xC2 ≤ b ∧ b ≤ 0xDF then
      match rest with
      | [] => []
      | c1 :: rest1 =>
        if 0x80 ≤ c1 ∧ c1 ≤ 0xBF then
          Char.ofNat ((b - 0xC0) * 0x40 + (c1 - 0x80)) :: utf8Go fuel rest1
        else utf8Go fuel rest
    else if 0xE0 ≤ b ∧ b ≤ 0xEF then
      match rest with
      | [] => []
      | c1 :: rest1 =>
        if cont3Lo b ≤ c1 ∧ c1 ≤ cont3Hi b then
          match rest1 with
          | [] => []
          | c2 :: rest2 =>
            if 0x80 ≤ c2 ∧ c2 ≤ 0xBF then
              Char.ofNat ((b - 0xE0) * 0x1000 + (c1 - 0x80) * 0x40 + (c2 - 0x80)) ::
                utf8Go fuel rest2
            else utf8Go fuel rest1
        else utf8Go fuel rest
    else if 0xF0 ≤ b ∧ b ≤ 0xF4 then
      match rest with
      | [] => []
      | c1 :: rest1 =>
        if cont4Lo b ≤ c1 ∧ c1 ≤ cont4Hi b then
          match rest1 with
          | [] => []
          | c2 :: rest2 =>
            if 0x80 ≤ c2 ∧ c2 ≤ 0xBF then
              match rest2 with
              | [] => []
              | c3 :: rest3 =>
                if 0x80 ≤ c3 ∧ c3 ≤ 0xBF then
                  Char.ofNat ((b - 0xF0) * 0x40000 + (c1 - 0x80) * 0x1000 +
                      (c2 - 0x80) * 0x40 + (c3 - 0x80)) :: utf8Go fuel rest3
                else utf8Go fuel rest2
            else utf8Go fuel rest1
        else utf8Go fuel rest
    else utf8Go fuel rest

/-- Python `bytes.decode('utf-8', errors='ignore')`: a lossy decode that
never fails. -/
def utf8DecodeIgnore (bs : List Nat) : List Char :=
  utf8Go bs.length bs

/-- Python `str.isspace` on one character (the set of characters that
`str.strip()` removes). -/
def isPySpace (c : Char) : Bool :=
  let n := c.toNat
  (0x09 ≤ n && n ≤ 0x0D) || n == 0x20 || (0x1C ≤ n && n ≤ 0x1F) || n == 0x85 ||
    n == 0xA0 || n == 0x1680 || (0x2000 ≤ n && n ≤ 0x200A) || n == 0x2028 ||
    n == 0x2029 || n == 0x202F || n == 0x205F || n == 0x3000

/-- Python `str.strip()`: remove leading and trailing whitespace. -/
def pyStrip (s : List Char) : List Char :=
  ((s.dropWhile isPySpace).reverse.dropWhile isPySpace).reverse

/-- The null character `'\x00'` that `extract_filename` splits on. -/
def nullChar : Char := Char.ofNat 0

/-- The condition of `extract_filename`'s loop:
`len(part) > 1 and '.' in part and part.split('.')[-1] == extension`. -/
def partMatches (part extension : List Char) : Bool :=
  decide (1 < part.length) && part.contains '.' &&
    decide ((part.splitOn '.').getLastD [] = extension)

/-- The `for part in possible_filename.split('\x00')` loop of
`extract_filename`: return the first matching part, stripped. -/
def extractLoop : List (List Char) → List Char → Option (List Char)
  | [], _ => none
  | part :: rest, extension =>
    if partMatches part extension then some (pyStrip part)
    else extractLoop rest extension

/-- Python `extract_filename(data, start, extension)`: decode
`data[start:start+100]` permissively, split on the null character, return the
first part satisfying the loop condition (stripped), else
`f'file.{extension}'`. -/
def extract_filename (data : List Nat) (start : Nat) (extension : List Char) : List Char :=
  match extractLoop ((utf8DecodeIgnore (pySlice data start ((start : Int) + 100))).splitOn nullChar) extension with
  | some name => name
  | none => "file.".toList ++ extension

/-- Python `extract_files_from_image`, modelled as the list of file writes it
performs: one `(filename, bytes)` pair per hit, where the filename is
`f"extracted_{filename}"` (the output directory is filesystem context and is
not modelled). -/
def extract_files_from_image (data : List Nat) : List (List Char × List Nat) :=
  let signatures := find_file_signatures data
  signatures.enum.map (fun p =>
    let hit := p.2
    let start := hit.2.1
    let e := spanEnd data hit (signatures[(p.1 + 1)]?)
    let file_data := pySlice data start e
    let filename := extract_filename file_data 0 hit.2.2.1
    ("extracted_".toList ++ filename, file_data))

/-- The record separator `SEPARATOR = b'\r\n\r\n'` of `stegno.py`. -/
def SEPARATOR : List Nat := [0x0D, 0x0A, 0x0D, 0x0A]

/-- The name separator `FILENAME_SEPARATOR = b'\0'` of `stegno.py`. -/
def FILENAME_SEPARATOR : List Nat := [0x00]

/-- The width `LENGTH_FIELD_SIZE = 10` of the length field of `stegno.py`. -/
def LENGTH_FIELD_SIZE : Nat := 10

/-- The UTF-8 bytes of Python `str(n)` for a natural number. -/
def natRepr (n : Nat) : List Nat :=
  (Nat.toDigits 10 n).map Char.toNat

/-- The bytes of `f"{n:<{LENGTH_FIELD_SIZE}}".encode('utf-8')`: the decimal
digits of `n` left-justified, padded on the right with ASCII spaces to the
field width. -/
def lengthField (n : Nat) : List Nat :=
  natRepr n ++ List.replicate (LENGTH_FIELD_SIZE - (natRepr n).length) 0x20

/-- Python `concatenate_image_and_files`, modelled as the bytes written to
the output file.  A hidden file is a pair of its name's UTF-8 bytes
(`file_path.name.encode('utf-8')`) and its content bytes (whose length is
`file_path.stat().st_size`); the zip archive produced by the external
`zipfile` library is an abstract byte list. -/
def concatenate_image_and_files (image_data : List Nat) (zipData : Option (List Nat))
    (files : List (List Nat × List Nat)) : List Nat :=
  image_data ++
    (match zipData with | some z => z | none => []) ++
    files.flatMap (fun fp =>
      lengthField fp.2.length ++ fp.1 ++ FILENAME_SEPARATOR ++ fp.2 ++ SEPARATOR)

/-- The writer dispatch in `stegno.py`'s `main`: when more than one file is
hidden they are zipped and the record list is empty
(`files_to_hide if not zip_name else []`); otherwise no zip is produced and
the files are written as records. -/
def mainHide (image : List Nat) (files_to_hide : List (List Nat × List Nat))
    (zipBytes : List Nat) : List Nat :=
  if 1 < files_to_hide.length then
    concatenate_image_and_files image (some zipBytes) []
  else
    concatenate_image_and_files image none files_to_hide

/-- Selection rule exactly as the specification words it: the first fragment
longer than one character whose text after the final `'.'` equals the format
tag, returned as that fragment itself (no whitespace stripping).  Stated for
comparison with the implementation's `extractLoop`. -/
def specSelectName (parts : List (List Char)) (extension : List Char) : Option (List Char) :=
  parts.find? (fun part => partMatches part extension)

/-- The length field as the specification words it: a 10-byte *left-padded*
ASCII length (digits preceded by spaces).  Stated for comparison with the
implementation's `lengthField`. -/
def specLeftPadField (n : Nat) : List Nat :=
  List.replicate (LENGTH_FIELD_SIZE - (natRepr n).length) 0x20 ++ natRepr n

/-- A single-file record as the specification words it:
`{10-byte left-padded ASCII length}{filename}{NUL}{file bytes}{CRLF CRLF}`. -/
def specRecordLeftPad (fp : List Nat × List Nat) : List Nat :=
  specLeftPadField fp.2.length ++ fp.1 ++ [0x00] ++ fp.2 ++ SEPARATOR

/-- Example buffer: a ZIP header followed by one byte, with no ZIP footer. -/
def zipTruncated : List Nat := [0x50, 0x4B, 0x03, 0x04, 0x58]

/-- The single hit that `find_file_signatures` produces on `zipTruncated`. -/
def zipHitAt0 : Hit := ([0x50, 0x4B, 0x03, 0x04], 0, ['z', 'i', 'p'], some [0x50, 0x4B, 0x05, 0x06])

/-- Example buffer: a JPEG header immediately followed by the JPEG footer. -/
def jpegClosed : List Nat := [0xFF, 0xD8, 0xFF, 0xD9]

/-- The single hit that `find_file_signatures` produces on `jpegClosed`. -/
def jpegHitAt0 : Hit := ([0xFF, 0xD8, 0xFF], 0, ['j', 'p', 'g'], some [0xFF, 0xD9])

/-- Example buffer: a GIF87a header at offset 0 and a GIF89a header at
offset 6 (two adjacent no-footer signatures). -/
def twoGifs : List Nat :=
  [0x47, 0x49, 0x46, 0x38, 0x37, 0x61, 0x47, 0x49, 0x46, 0x38, 0x39, 0x61]

/-- The first hit on `twoGifs`. -/
def gif87HitAt0 : Hit := ([0x47, 0x49, 0x46, 0x38, 0x37, 0x61], 0, ['g', 'i', 'f'], none)

/-- The second hit on `twoGifs`. -/
def gif89HitAt6 : Hit := ([0x47, 0x49, 0x46, 0x38, 0x39, 0x61], 6, ['g', 'i', 'f'], none)

/-- Example candidate slice whose embedded name carries a leading space:
the bytes of `' a.txt'` followed by a NUL. -/
def paddedNameSlice : List Nat := [0x20, 0x61, 0x2E, 0x74, 0x78, 0x74, 0x00]

/-- Example hidden file for the writer: name `'a'`, content `'12345'`
(five bytes). -/
def sampleFile : List Nat × List Nat := ([0x61], [0x31, 0x32, 0x33, 0x34, 0x35])

/-- A true match fits inside the buffer: for a non-empty pattern,
`matchesAt data sig o` forces `o + sig.length ≤ data.length`. -/
theorem matchesAt_length_le {data sig : List Nat} {o : Nat} (hs : sig ≠ [])
    (h : matchesAt data sig o = true) : o + sig.length ≤ data.length := by
  have h' : (data.drop o).take sig.length = sig := of_decide_eq_true h
  have hlen := congrArg List.length h'
  simp only [List.length_take, List.length_drop] at hlen
  have hpos : 0 < sig.length := List.length_pos.mpr hs
  omega

/-- Soundness and minimality of the byte-scan helper: a returned index is at
least the start index, matches, and is the least such index. -/
theorem findFromGo_some {data sig : List Nat} :
    ∀ (suffix : List Nat) (i o : Nat), suffix = data.drop i →
      findFromGo sig suffix i = some o →
      i ≤ o ∧ matchesAt data sig o = true ∧
        ∀ m, i ≤ m → m < o → matchesAt data sig m = false := by
  intro suffix
  induction suffix with
  | nil =>
    intro i o hdrop h
    by_cases hs : sig = []
    · simp only [findFromGo, if_pos hs, Option.some.injEq] at h
      subst h
      refine ⟨Nat.le_refl i, ?_, fun m h1 h2 => absurd (Nat.lt_of_le_of_lt h1 h2) (Nat.lt_irrefl i)⟩
      simp [matchesAt, hs]
    · simp only [findFromGo, if_neg hs] at h
      exact Option.noConfusion h
  | cons d rest ih =>
    intro i o hdrop h
    simp only [findFromGo] at h
    split at h
    · rename_i hguard
      cases h
      refine ⟨Nat.le_refl i, ?_, fun m h1 h2 => absurd (Nat.lt_of_le_of_lt h1 h2) (Nat.lt_irrefl i)⟩
      rw [matchesAt, ← hdrop]
      exact decide_eq_true hguard.symm
    · rename_i hguard
      have hrest : rest = data.drop (i + 1) := by
        have : (d :: rest).drop 1 = (data.drop i).drop 1 := by rw [hdrop]
        simpa using this
      obtain ⟨h1, h2, h3⟩ := ih (i + 1) o hrest h
      refine ⟨Nat.le_trans (Nat.le_succ i) h1, h2, ?_⟩
      intro m hm1 hm2
      rcases Nat.eq_or_lt_of_le hm1 with heq | hlt
      · subst heq
        rw [matchesAt, ← hdrop]
        exact decide_eq_false (fun hh => hguard hh.symm)
      · exact h3 m hlt hm2

/-- When the byte scan fails, no index at or after the start matches
(for a non-empty pattern). -/
theorem findFromGo_none {data sig : List Nat} (hs : sig ≠ []) :
    ∀ (suffix : List Nat) (i : Nat), suffix = data.drop i →
      findFromGo sig suffix i = none →
      ∀ m, i ≤ m → matchesAt data sig m = false := by
  intro suffix
  induction suffix with
  | nil =>
    intro i hdrop _ m hm
    have hlen : data.length ≤ i := List.drop_eq_nil_iff.mp hdrop.symm
    have : data.drop m = [] := List.drop_eq_nil_iff.mpr (Nat.le_trans hlen hm)
    rw [matchesAt, this]
    simp only [List.take_nil]
    exact decide_eq_false (fun hh => hs hh.symm)
  | cons d rest ih =>
    intro i hdrop h m hm
    simp only [findFromGo] at h
    split at h
    · exact absurd h (by simp)
    · rename_i hguard
      have hrest : rest = data.drop (i + 1) := by
        have : (d :: rest).drop 1 = (data.drop i).drop 1 := by rw [hdrop]
        simpa using this
      rcases Nat.eq_or_lt_of_le hm with heq | hlt
      · subst heq
        rw [matchesAt, ← hdrop]
        exact decide_eq_false (fun hh => hguard hh.symm)
      · exact ih (i + 1) hrest h m hlt

/-- Specification of `findFrom` on success. -/
theorem findFrom_some {data sig : List Nat} {start o : Nat}
    (h : findFrom data sig start = some o) :
    start ≤ o ∧ matchesAt data sig o = true ∧
      ∀ m, start ≤ m → m < o → matchesAt data sig m = false :=
  findFromGo_some (data.drop start) start o rfl h

/-- Specification of `findFrom` on failure. -/
theorem findFrom_none {data sig : List Nat} (hs : sig ≠ []) {start : Nat}
    (h : findFrom data sig start = none) :
    ∀ m, start ≤ m → matchesAt data sig m = false :=
  findFromGo_none hs (data.drop start) start rfl h

/-- Every offset collected by the scan loop is at least the search start and
is a real match. -/
theorem scanLoop_sound {data sig : List Nat} :
    ∀ (fuel start o : Nat), o ∈ scanLoop data sig start fuel →
      start ≤ o ∧ matchesAt data sig o = true := by
  intro fuel
  induction fuel with
  | zero => intro start o h; simp [scanLoop] at h
  | succ n ih =>
    intro start o h
    simp only [scanLoop] at h
    cases hf : findFrom data sig start with
    | none => rw [hf] at h; simp at h
    | some o0 =>
      rw [hf] at h
      rcases List.mem_cons.mp h with h1 | h2
      · subst h1
        exact ⟨(findFrom_some hf).1, (findFrom_some hf).2.1⟩
      · obtain ⟨ha, hb⟩ := ih (o0 + 1) o h2
        have h0 := (findFrom_some hf).1
        exact ⟨by omega, hb⟩

/-- With enough fuel, the scan loop collects every match at or after the
search start (for a non-empty pattern). -/
theorem scanLoop_complete {data sig : List Nat} (hs : sig ≠ []) :
    ∀ (fuel start o : Nat), data.length + 1 ≤ fuel + start →
      start ≤ o → matchesAt data sig o = true →
      o ∈ scanLoop data sig start fuel := by
  intro fuel
  induction fuel with
  | zero =>
    intro start o hfuel hso hm
    exfalso
    have h1 := matchesAt_length_le hs hm
    have hpos : 0 < sig.length := List.length_pos.mpr hs
    omega
  | succ n ih =>
    intro start o hfuel hso hm
    simp only [scanLoop]
    cases hf : findFrom data sig start with
    | none =>
      exfalso
      have := findFrom_none hs hf o hso
      rw [hm] at this
      exact Bool.true_eq_false.mp this
    | some o0 =>
      obtain ⟨h1, h2, h3⟩ := findFrom_some hf
      by_cases heq : o = o0
      · subst heq
        exact List.mem_cons_self o _
      · have ho : o0 < o := by
          rcases Nat.lt_or_ge o o0 with hlt | hge
          · exfalso
            have := h3 o hso hlt
            rw [hm] at this
            exact Bool.true_eq_false.mp this
          · omega
        apply List.mem_cons_of_mem
        have hlen := matchesAt_length_le hs h2
        have hpos : 0 < sig.length := List.length_pos.mpr hs
        exact ih (o0 + 1) o (by omega) (by omega) hm

/-- The offsets collected by the scan loop are strictly increasing. -/
theorem scanLoop_pairwise {data sig : List Nat} :
    ∀ (fuel start : Nat), (scanLoop data sig start fuel).Pairwise (· < ·) := by
  intro fuel
  induction fuel with
  | zero => intro start; simp [scanLoop]
  | succ n ih =>
    intro start
    simp only [scanLoop]
    cases hf : findFrom data sig start with
    | none => simp
    | some o0 =>
      refine List.Pairwise.cons ?_ (ih (o0 + 1))
      intro b hb
      have := (scanLoop_sound n (o0 + 1) b hb).1
      omega

/-- Membership in the per-signature scan result is exactly occurrence of the
signature (for a non-empty pattern). -/
theorem scanSig_mem {data sig : List Nat} (hs : sig ≠ []) (o : Nat) :
    o ∈ scanSig data sig ↔ matchesAt data sig o = true := by
  constructor
  · intro h
    exact (scanLoop_sound (data.length + 1) 0 o h).2
  · intro h
    exact scanLoop_complete hs (data.length + 1) 0 o (by omega) (Nat.zero_le o) h

/-- The per-signature scan result is strictly increasing. -/
theorem scanSig_pairwise (data sig : List Nat) :
    (scanSig data sig).Pairwise (· < ·) :=
  scanLoop_pairwise (data.length + 1) 0

/-- Every catalog signature is non-empty. -/
theorem catalog_sig_ne_nil : ∀ e ∈ FILE_SIGNATURES, e.1 ≠ [] := by decide

/-- Every defined catalog footer is non-empty and at most one byte longer
than its signature. -/
theorem catalog_footer_facts :
    ∀ e ∈ FILE_SIGNATURES, ∀ f, e.2.2 = some f → f ≠ [] ∧ f.length ≤ e.1.length + 1 := by
  decide

/-- Distinct catalog entries have distinct signatures (Python dict keys). -/
theorem catalog_sigs_pairwise_ne :
    FILE_SIGNATURES.Pairwise (fun a b => a.1 ≠ b.1) := by
  decide

/-- Characterisation of the pre-sort hit list. -/
theorem mem_rawHits {data : List Nat} {h : Hit} :
    h ∈ rawHits data ↔
      ∃ e ∈ FILE_SIGNATURES, ∃ o, matchesAt data e.1 o = true ∧
        h = (e.1, o, e.2.1, e.2.2) := by
  rw [rawHits]
  simp only [List.mem_flatMap, List.mem_map]
  constructor
  · rintro ⟨e, he, o, ho, rfl⟩
    exact ⟨e, he, o, (scanSig_mem (catalog_sig_ne_nil e he) o).mp ho, rfl⟩
  · rintro ⟨e, he, o, ho, rfl⟩
    exact ⟨e, he, o, (scanSig_mem (catalog_sig_ne_nil e he) o).mpr ho, rfl⟩

/-- Sorting does not change membership: the hits of `find_file_signatures`
are those of the raw scan. -/
theorem mem_find_file_signatures {data : List Nat} {h : Hit} :
    h ∈ find_file_signatures data ↔ h ∈ rawHits data :=
  (List.mergeSort_perm (rawHits data) hitLE).mem_iff

/-- Facts available for every hit produced on a buffer: its signature
occurs at its offset, is non-empty, and its footer (when defined) is
non-empty and at most one byte longer than the signature. -/
theorem hit_facts {data : List Nat} {h : Hit} (hm : h ∈ find_file_signatures data) :
    matchesAt data h.1 h.2.1 = true ∧ h.1 ≠ [] ∧
      ∀ f, h.2.2.2 = some f → f ≠ [] ∧ f.length ≤ h.1.length + 1 := by
  obtain ⟨e, he, o, ho, rfl⟩ := mem_rawHits.mp (mem_find_file_signatures.mp hm)
  exact ⟨ho, catalog_sig_ne_nil e he, fun f hf => catalog_footer_facts e he f hf⟩

/-- Concrete scan: `zipTruncated` yields exactly one hit. -/
theorem find_zipTruncated : find_file_signatures zipTruncated = [zipHitAt0] := by
  have h : rawHits zipTruncated = [zipHitAt0] := rfl
  rw [find_file_signatures, h]
  simp

/-- Concrete scan: `jpegClosed` yields exactly one hit. -/
theorem find_jpegClosed : find_file_signatures jpegClosed = [jpegHitAt0] := by
  have h : rawHits jpegClosed = [jpegHitAt0] := rfl
  rw [find_file_signatures, h]
  simp

/-- Concrete scan: `twoGifs` yields the two GIF hits in offset order. -/
theorem find_twoGifs : find_file_signatures twoGifs = [gif87HitAt0, gif89HitAt6] := by
  have h : rawHits twoGifs = [gif87HitAt0, gif89HitAt6] := rfl
  rw [find_file_signatures, h]
  apply List.mergeSort_of_sorted
  decide

/-- The fallback end (next hit's offset, or the buffer length) never exceeds
the buffer length when the next hit comes from the hit list of the buffer. -/
theorem nextEnd_le (data : List Nat) (j : Nat) :
    nextEnd data ((find_file_signatures data)[j]?) ≤ (data.length : Int) := by
  cases hn : (find_file_signatures data)[j]? with
  | none => simp [nextEnd]
  | some h2 =>
    have hm2 : h2 ∈ find_file_signatures data := List.getElem?_mem hn
    obtain ⟨hmatch2, hsne2, -⟩ := hit_facts hm2
    have := matchesAt_length_le hsne2 hmatch2
    simp only [nextEnd]
    omega

/-- C1: in `extract_files_from_image`, when a hit's footer never occurs at or
after the hit's offset, the computed span end is `len(footer) - 1` — the
unhandled `-1` of `bytes.find` plus the footer length — and not the buffer
length that the specification's fallback policy requires.  On the buffer
`zipTruncated` (a ZIP header plus one byte, footer absent) the code computes
`end = 3`, not `5`. -/
theorem c1_unresolved_footer_end_is_not_buffer_length :
    find_file_signatures zipTruncated = [zipHitAt0] ∧
    findFrom zipTruncated [0x50, 0x4B, 0x05, 0x06] 0 = none ∧
    spanEnd zipTruncated zipHitAt0 ((find_file_signatures zipTruncated)[1]?) = 3 ∧
    (zipTruncated.length : Int) = 5 := by
  refine ⟨find_zipTruncated, rfl, ?_, rfl⟩
  rw [find_zipTruncated]
  decide

/-- C2: when a hit's footer is defined and `bytes.find` locates it at
position `p` (the first occurrence at or after the hit's offset), the span
end resolved by `extract_files_from_image` is `p + len(footer)`, the
footer's exclusive end offset. -/
theorem c2_found_footer_gives_footer_end (data : List Nat) (i : Nat) (hit : Hit)
    (f : List Nat) (p : Nat)
    (_hh : (find_file_signatures data)[i]? = some hit)
    (hf : hit.2.2.2 = some f) (hfne : f ≠ [])
    (hp : findFrom data f hit.2.1 = some p) :
    spanEnd data hit ((find_file_signatures data)[i + 1]?) = (p : Int) + (f.length : Int) := by
  simp only [spanEnd, hf, if_neg hfne, pyFind, hp]

/-- Witness for C2 on `jpegClosed`: the JPEG footer is found at offset 2, so
the resolved end is `2 + 2 = 4`, not the buffer length. -/
theorem c2_found_footer_gives_footer_end_witness :
    spanEnd jpegClosed jpegHitAt0 ((find_file_signatures jpegClosed)[1]?) = 4 := by
  have h := c2_found_footer_gives_footer_end jpegClosed 0 jpegHitAt0 [0xFF, 0xD9] 2
    (by rw [find_jpegClosed]; rfl) rfl (by decide) rfl
  exact h.trans (by decide)

/-- C3: when a hit has no footer, the span end resolved by
`extract_files_from_image` is the next hit's offset when a next hit exists,
and the buffer length when the hit is the last one. -/
theorem c3_no_footer_end_is_next_offset (data : List Nat) (i : Nat) (hit : Hit)
    (_hh : (find_file_signatures data)[i]? = some hit)
    (hf : hit.2.2.2 = none) :
    (∀ h2, (find_file_signatures data)[i + 1]? = some h2 →
      spanEnd data hit ((find_file_signatures data)[i + 1]?) = (h2.2.1 : Int)) ∧
    ((find_file_signatures data)[i + 1]? = none →
      spanEnd data hit ((find_file_signatures data)[i + 1]?) = (data.length : Int)) := by
  constructor
  · intro h2 hnext
    simp only [spanEnd, hf, hnext, nextEnd]
  · intro hnone
    simp only [spanEnd, hf, hnone, nextEnd]

/-- Witness for C3 on `twoGifs`: two adjacent no-footer GIF hits at offsets
0 and 6 on a 12-byte buffer; the first span ends at 6 (the next hit's
offset) and the second at 12 (the buffer length). -/
theorem c3_no_footer_end_is_next_offset_witness :
    spanEnd twoGifs gif87HitAt0 (some gif89HitAt6) = 6 ∧
    spanEnd twoGifs gif89HitAt6 none = 12 := by
  constructor
  · have h := (c3_no_footer_end_is_next_offset twoGifs 0 gif87HitAt0
      (by rw [find_twoGifs]; rfl) rfl).1 gif89HitAt6 (by rw [find_twoGifs]; rfl)
    rw [find_twoGifs] at h
    exact h.trans (by decide)
  · have h := (c3_no_footer_end_is_next_offset twoGifs 1 gif89HitAt6
      (by rw [find_twoGifs]; rfl) rfl).2 (by rw [find_twoGifs]; rfl)
    rw [find_twoGifs] at h
    exact h.trans (by decide)

/-- C6: for every hit of the hit list, the resolved span end is at most the
buffer length, in all three resolution cases (footer found, footer absent,
no footer defined). -/
theorem c6_span_end_le_buffer_length (data : List Nat) (i : Nat) (hit : Hit)
    (hh : (find_file_signatures data)[i]? = some hit) :
    spanEnd data hit ((find_file_signatures data)[i + 1]?) ≤ (data.length : Int) := by
  have hmem : hit ∈ find_file_signatures data := List.getElem?_mem hh
  obtain ⟨hmatch, hsne, hfoot⟩ := hit_facts hmem
  cases hcase : hit.2.2.2 with
  | none =>
    simp only [spanEnd, hcase]
    exact nextEnd_le data (i + 1)
  | some f =>
    obtain ⟨hfne, hflen⟩ := hfoot f hcase
    simp only [spanEnd, hcase, if_neg hfne]
    cases hp : findFrom data f hit.2.1 with
    | some p =>
      simp only [pyFind, hp]
      have hm := (findFrom_some hp).2.1
      have hple := matchesAt_length_le hfne hm
      omega
    | none =>
      simp only [pyFind, hp]
      have h1 := matchesAt_length_le hsne hmatch
      omega

/-- Witness for C6 on `jpegClosed`: the resolved end 4 is at most the buffer
length 4. -/
theorem c6_span_end_le_buffer_length_witness :
    spanEnd jpegClosed jpegHitAt0 ((find_file_signatures jpegClosed)[1]?) ≤
      (jpegClosed.length : Int) :=
  c6_span_end_le_buffer_length jpegClosed 0 jpegHitAt0 (by rw [find_jpegClosed]; rfl)

/-- Counting an offset in a strictly increasing list: one when present. -/
theorem countP_eq_one_of_pairwise_lt {os : List Nat} (hpw : os.Pairwise (· < ·))
    {o : Nat} (hm : o ∈ os) :
    os.countP (fun x => decide (x = o)) = 1 := by
  induction os with
  | nil => cases hm
  | cons a t ih =>
    obtain ⟨hhead, htail⟩ := List.pairwise_cons.mp hpw
    rcases List.mem_cons.mp hm with heq | hmt
    · subst heq
      rw [List.countP_cons_of_pos _ _ (by simp)]
      have hz : t.countP (fun x => decide (x = o)) = 0 := by
        rw [List.countP_eq_zero]
        intro b hb
        simp only [decide_eq_true_eq]
        exact fun hbo => absurd (hbo ▸ hhead b hb) (Nat.lt_irrefl o)
      rw [hz]
    · have hne : a ≠ o := Nat.ne_of_lt (hhead o hmt)
      rw [List.countP_cons_of_neg _ _ (by simpa using hne)]
      exact ih htail hmt

/-- Counting a target hit among the hits built from one signature's offsets
reduces to counting the offset. -/
theorem countP_map_mk (sig : List Nat) (ext : List Char) (ft : Option (List Nat))
    (o : Nat) (os : List Nat) :
    ((os.map (fun o' => ((sig, o', ext, ft) : Hit))).countP
        (fun h => decide (h = (sig, o, ext, ft))))
      = os.countP (fun x => decide (x = o)) := by
  rw [List.countP_map]
  apply List.countP_congr
  intro x _
  simp [Function.comp, Prod.ext_iff]

/-- Hits built from a catalog entry with a different signature never count
towards the target. -/
theorem countP_map_mk_ne {sig s1 : List Nat} (hne : s1 ≠ sig) (e1 : List Char)
    (f1 : Option (List Nat)) (ext : List Char) (ft : Option (List Nat))
    (o : Nat) (os : List Nat) :
    ((os.map (fun o' => ((s1, o', e1, f1) : Hit))).countP
        (fun h => decide (h = (sig, o, ext, ft)))) = 0 := by
  rw [List.countP_eq_zero]
  intro h hmem
  obtain ⟨o', -, rfl⟩ := List.mem_map.mp hmem
  simp only [decide_eq_true_eq, Prod.mk.injEq, not_and]
  intro h1
  exact absurd h1 hne

/-- Counting a target hit over the whole catalog scan reduces to counting
its offset in its own signature's scan, provided catalog signatures are
pairwise distinct. -/
theorem countP_flatMap_entries (data sig : List Nat) (ext : List Char)
    (ft : Option (List Nat)) (o : Nat) :
    ∀ entries : List (List Nat × List Char × Option (List Nat)),
      entries.Pairwise (fun a b => a.1 ≠ b.1) →
      (sig, ext, ft) ∈ entries →
      ((entries.flatMap (fun e =>
          (scanSig data e.1).map (fun o' => ((e.1, o', e.2.1, e.2.2) : Hit)))).countP
          (fun h => decide (h = (sig, o, ext, ft))))
        = (scanSig data sig).countP (fun x => decide (x = o)) := by
  intro entries
  induction entries with
  | nil => intro _ hmem; cases hmem
  | cons e t ih =>
    intro hpw hmem
    obtain ⟨hhead, htail⟩ := List.pairwise_cons.mp hpw
    rw [List.flatMap_cons, List.countP_append]
    rcases List.mem_cons.mp hmem with heq | hmemt
    · subst heq
      have htz : ((t.flatMap (fun e =>
          (scanSig data e.1).map (fun o' => ((e.1, o', e.2.1, e.2.2) : Hit)))).countP
          (fun h => decide (h = (sig, o, ext, ft)))) = 0 := by
        rw [List.countP_eq_zero]
        intro h hm
        obtain ⟨e', he', hm'⟩ := List.mem_flatMap.mp hm
        obtain ⟨o', -, rfl⟩ := List.mem_map.mp hm'
        have hne : e'.1 ≠ sig := fun hcontra => hhead e' he' hcontra.symm
        simp only [decide_eq_true_eq, Prod.mk.injEq, not_and]
        intro h1
        exact absurd h1 hne
      rw [htz, countP_map_mk]
      simp
    · have hne : e.1 ≠ sig := hhead (sig, ext, ft) hmemt
      rw [countP_map_mk_ne hne, ih htail hmemt]
      exact Nat.zero_add _

/-- C4: for every catalog entry and every offset, `find_file_signatures`
reports exactly one hit when the signature occurs at that offset (repeated
and overlapping occurrences included, since the per-signature search resumes
one byte past each match) and none when it does not. -/
theorem c4_every_occurrence_exactly_one_hit (data sig : List Nat) (ext : List Char)
    (ft : Option (List Nat)) (o : Nat)
    (he : (sig, ext, ft) ∈ FILE_SIGNATURES) :
    (find_file_signatures data).countP (fun h => decide (h = (sig, o, ext, ft)))
      = if matchesAt data sig o = true then 1 else 0 := by
  rw [find_file_signatures, (List.mergeSort_perm (rawHits data) hitLE).countP_eq, rawHits,
    countP_flatMap_entries data sig ext ft o FILE_SIGNATURES catalog_sigs_pairwise_ne he]
  have hs : sig ≠ [] := catalog_sig_ne_nil (sig, ext, ft) he
  by_cases hm : matchesAt data sig o = true
  · rw [if_pos hm]
    exact countP_eq_one_of_pairwise_lt (scanSig_pairwise data sig) ((scanSig_mem hs o).mpr hm)
  · rw [if_neg hm, List.countP_eq_zero]
    intro x hx
    simp only [decide_eq_true_eq]
    intro hxo
    subst hxo
    exact hm ((scanSig_mem hs x).mp hx)

/-- Witness for C4: on `zipTruncated` the ZIP signature occurs at offset 0
and is reported exactly once. -/
theorem c4_every_occurrence_exactly_one_hit_witness :
    (find_file_signatures zipTruncated).countP
      (fun h => decide (h = (([0x50, 0x4B, 0x03, 0x04], 0, ['z', 'i', 'p'],
        some [0x50, 0x4B, 0x05, 0x06]) : Hit))) = 1 := by
  have h := c4_every_occurrence_exactly_one_hit zipTruncated [0x50, 0x4B, 0x03, 0x04]
    ['z', 'i', 'p'] (some [0x50, 0x4B, 0x05, 0x06]) 0 (by decide)
  rw [if_pos (by decide)] at h
  exact h

/-- The hit comparison is transitive. -/
theorem hitLE_trans : ∀ (a b c : Hit), hitLE a b → hitLE b c → hitLE a c := by
  intro a b c hab hbc
  simp only [hitLE, decide_eq_true_eq] at *
  omega

/-- The hit comparison is total. -/
theorem hitLE_total : ∀ (a b : Hit), hitLE a b || hitLE b a := by
  intro a b
  simp only [hitLE]
  rcases Nat.le_total a.2.1 b.2.1 with h | h
  · simp [h]
  · simp [h]

/-- C5: the hit list is sorted by non-decreasing offset, and the sort is
stable: at every offset value, the hits appear exactly as in the pre-sort
scan list (catalog iteration order, then per-signature scan order), so the
output is deterministic. -/
theorem c5_sorted_and_stable (data : List Nat) :
    List.Pairwise (fun a b : Hit => a.2.1 ≤ b.2.1) (find_file_signatures data) ∧
    ∀ v : Nat, (find_file_signatures data).filter (fun h => decide (h.2.1 = v))
      = (rawHits data).filter (fun h => decide (h.2.1 = v)) := by
  constructor
  · exact (List.sorted_mergeSort hitLE_trans hitLE_total (rawHits data)).imp
      (fun h => by simpa [hitLE] using h)
  · intro v
    have hall : ∀ h ∈ (rawHits data).filter (fun h : Hit => decide (h.2.1 = v)), h.2.1 = v :=
      fun h hm => of_decide_eq_true (List.mem_filter.mp hm).2
    have hpw : ((rawHits data).filter (fun h : Hit => decide (h.2.1 = v))).Pairwise
        (fun a b => hitLE a b = true) := by
      apply List.pairwise_of_forall_mem_list
      intro a ha b hb
      simp [hitLE, hall a ha, hall b hb]
    have hsub : List.Sublist ((rawHits data).filter (fun h : Hit => decide (h.2.1 = v)))
        (find_file_signatures data) := by
      rw [find_file_signatures]
      exact List.sublist_mergeSort hitLE_trans hitLE_total hpw (List.filter_sublist _)
    have hsub2 : List.Sublist ((rawHits data).filter (fun h : Hit => decide (h.2.1 = v)))
        ((find_file_signatures data).filter (fun h : Hit => decide (h.2.1 = v))) := by
      have h1 := hsub.filter (fun h : Hit => decide (h.2.1 = v))
      rwa [List.filter_eq_self.mpr (fun a ha => (List.mem_filter.mp ha).2)] at h1
    have hperm : List.Perm
        ((find_file_signatures data).filter (fun h : Hit => decide (h.2.1 = v)))
        ((rawHits data).filter (fun h : Hit => decide (h.2.1 = v))) :=
      (List.mergeSort_perm (rawHits data) hitLE).filter _
    exact (hsub2.eq_of_length hperm.length_eq.symm).symm

/-- C10: no `(signature, offset)` pair is reported twice: projecting every
hit to its signature and offset yields a duplicate-free list. -/
theorem c10_no_duplicate_signature_offset_pairs (data : List Nat) :
    ((find_file_signatures data).map (fun h => (h.1, h.2.1))).Nodup := by
  have hperm : List.Perm ((find_file_signatures data).map (fun h : Hit => (h.1, h.2.1)))
      ((rawHits data).map (fun h : Hit => (h.1, h.2.1))) :=
    (List.mergeSort_perm (rawHits data) hitLE).map _
  rw [hperm.nodup_iff, rawHits, List.map_flatMap]
  have hre : (fun e : List Nat × List Char × Option (List Nat) =>
      ((scanSig data e.1).map (fun o => ((e.1, o, e.2.1, e.2.2) : Hit))).map
        (fun h : Hit => (h.1, h.2.1)))
      = fun e : List Nat × List Char × Option (List Nat) =>
          (scanSig data e.1).map (fun o => (e.1, o)) := by
    funext e
    rw [List.map_map]
    rfl
  rw [hre, List.nodup_flatMap]
  constructor
  · intro e he
    have hinj : Function.Injective (fun o : Nat => ((e.1, o) : List Nat × Nat)) := by
      intro a b hab
      simpa using congrArg Prod.snd hab
    exact List.Nodup.map hinj ((scanSig_pairwise data e.1).imp (fun hlt => Nat.ne_of_lt hlt))
  · refine catalog_sigs_pairwise_ne.imp ?_
    intro a b hne x hxa hxb
    obtain ⟨o1, -, rfl⟩ := List.mem_map.mp hxa
    obtain ⟨o2, -, heq⟩ := List.mem_map.mp hxb
    exact hne (congrArg Prod.fst heq).symm

/-- C8: on a buffer in which no catalog signature occurs at any offset
(the empty buffer included), the scan returns the empty hit list and the
extraction performs no file writes (and, being total, returns normally). -/
theorem c8_no_signatures_means_no_writes (data : List Nat)
    (h : ∀ sig ext ft, (sig, ext, ft) ∈ FILE_SIGNATURES → ∀ o, matchesAt data sig o = false) :
    find_file_signatures data = [] ∧ extract_files_from_image data = [] := by
  have hraw : rawHits data = [] := by
    rw [List.eq_nil_iff_forall_not_mem]
    intro hit hmem
    obtain ⟨e, he, o, ho, -⟩ := mem_rawHits.mp hmem
    have := h e.1 e.2.1 e.2.2 (by simpa using he) o
    rw [ho] at this
    exact Bool.true_eq_false.mp this
  have hfind : find_file_signatures data = [] := by
    rw [find_file_signatures, hraw]
    simp
  exact ⟨hfind, by simp [extract_files_from_image, hfind]⟩

/-- Witness for C8: the empty buffer has no signature occurrence, no hits,
and no writes. -/
theorem c8_no_signatures_means_no_writes_witness :
    find_file_signatures [] = [] ∧ extract_files_from_image [] = [] := by
  apply c8_no_signatures_means_no_writes
  intro sig ext ft he o
  have hs : sig ≠ [] := catalog_sig_ne_nil (sig, ext, ft) he
  rw [matchesAt, List.drop_nil, List.take_nil]
  exact decide_eq_false (fun hh => hs hh.symm)

/-- The filename loop returns exactly the first specification-selected
fragment, stripped. -/
theorem extractLoop_eq_specSelect (extension : List Char) :
    ∀ parts : List (List Char),
      extractLoop parts extension = (specSelectName parts extension).map pyStrip := by
  intro parts
  induction parts with
  | nil => rfl
  | cons part rest ih =>
    by_cases hp : partMatches part extension = true
    · simp [extractLoop, specSelectName, hp]
    · simp only [extractLoop, specSelectName] at *
      rw [if_neg (by simpa using hp), List.find?_cons_of_neg _ (by simpa using hp)]
      exact ih

/-- C7 counterexample: on the slice `' a.txt\x00'` with format tag `txt`,
the first qualifying fragment is `' a.txt'`, but `extract_filename` returns
the stripped `'a.txt'`, not that fragment. -/
theorem c7_counterexample_strip :
    specSelectName ((utf8DecodeIgnore (pySlice paddedNameSlice 0 100)).splitOn nullChar)
        ['t', 'x', 't'] = some [' ', 'a', '.', 't', 'x', 't'] ∧
    extract_filename paddedNameSlice 0 ['t', 'x', 't'] = ['a', '.', 't', 'x', 't'] ∧
    ([' ', 'a', '.', 't', 'x', 't'] : List Char) ≠ ['a', '.', 't', 'x', 't'] := by
  refine ⟨rfl, rfl, by decide⟩

/-- C7 (amended): `extract_filename` decodes the first 100 bytes of the
candidate slice permissively, splits on the null character, and returns the
first fragment longer than one character whose text after the final `'.'`
equals the format tag — with leading and trailing whitespace stripped — and
exactly `file.<format>` when no fragment qualifies. -/
theorem c7_filename_selection_rule (data : List Nat) (start : Nat) (extension : List Char) :
    extract_filename data start extension =
      match specSelectName
          ((utf8DecodeIgnore (pySlice data start ((start : Int) + 100))).splitOn nullChar)
          extension with
      | some part => pyStrip part
      | none => "file.".toList ++ extension := by
  rw [extract_filename, extractLoop_eq_specSelect]
  cases specSelectName
      ((utf8DecodeIgnore (pySlice data start ((start : Int) + 100))).splitOn nullChar)
      extension with
  | none => rfl
  | some part => rfl

/-- C9 counterexample: hiding exactly one file (name `'a'`, five content
bytes) after an empty carrier does not produce a record with a *left-padded*
length field: the length field is written left-justified. -/
theorem c9_counterexample_left_padding :
    mainHide [] [sampleFile] [] ≠ [] ++ specRecordLeftPad sampleFile := by
  decide

/-- C9 (amended): hiding exactly one file writes the carrier bytes followed
by one record `{10-byte left-justified (right-padded) ASCII length}
{filename}{NUL}{file bytes}{CRLF CRLF}`; hiding more than one file writes
the carrier bytes followed by the zip archive's bytes and no records. -/
theorem c9_writer_output_format (image zipBytes : List Nat)
    (files : List (List Nat × List Nat)) (nm content : List Nat) :
    (mainHide image [(nm, content)] zipBytes =
      image ++ (lengthField content.length ++ nm ++ [0x00] ++ content ++ SEPARATOR)) ∧
    (1 < files.length → mainHide image files zipBytes = image ++ zipBytes) := by
  constructor
  · rw [mainHide, if_neg (by simp)]
    simp [concatenate_image_and_files, FILENAME_SEPARATOR]
  · intro hlen
    rw [mainHide, if_pos hlen]
    simp [concatenate_image_and_files]

/-- Witness for C9 on concrete inputs: two hidden files produce carrier
bytes followed by the (abstract) zip bytes, and one hidden file produces the
carrier followed by its single record. -/
theorem c9_writer_output_format_witness :
    mainHide [0x42] [([0x61], [0x31]), ([0x62], [0x32])] [0x07, 0x08] = [0x42, 0x07, 0x08] ∧
    mainHide [0x42] [sampleFile] [] =
      [0x42] ++ (lengthField 5 ++ [0x61] ++ [0x00] ++ [0x31, 0x32, 0x33, 0x34, 0x35] ++ SEPARATOR) := by
  constructor
  · have h := (c9_writer_output_format [0x42] [0x07, 0x08]
      [([0x61], [0x31]), ([0x62], [0x32])] [] []).2 (by decide)
    exact h.trans (by decide)
  · exact (c9_writer_output_format [0x42] [] [] [0x61] [0x31, 0x32, 0x33, 0x34, 0x35]).1
